import Mathlib

/-!
Shallow embedding of the Interest-Calculator repository (python sources).

The repository contains three engine variants:

* variant A, the function calculate_interest_with_steps as it appears
  in HOHOHOHOH.py (both copies) and in the first copy inside
  OffRelease.py, together with its helpers get_band_name and
  get_rate_for_date_and_band; these copies log the balance rounded to
  2 decimals;

* variant A unrounded, the calculate_interest_with_steps copies of
  app234.py, backup.py, streamlittest.py, testapp.py,
  interest_calculator_cli.py, the first copy of
  .devcontainer/AHHHAHAHA.py and the third copy inside OffRelease.py:
  the same loop except that the log carries the raw unrounded balance
  (the cli copy also writes the log to a file and returns only the
  total; the logged values are the same);

* variant B, the function calculate_daily_interest, appearing in
  OffRelease.py (second copy) and .devcontainer/AHHHAHAHA.py, together
  with its helpers get_band_for_balance and get_interest_rate.

Dates are embedded as integers (a date is an integer day number, so
that the pandas date_range start..end becomes the inclusive integer
interval).  Monetary amounts and rates are embedded as rationals.
The python round builtin (round half to even on the scaled value) is
embedded as pyRound.
-/

/-- Round a rational to the nearest integer, ties to even
(the python round convention). -/
def roundHalfEven (x : ℚ) : ℤ :=
  let f : ℤ := ⌊x⌋
  let r : ℚ := x - f
  if r < 1/2 then f
  else if 1/2 < r then f + 1
  else if f % 2 = 0 then f else f + 1

/-- The python builtin round(x, k) on exact rational data. -/
def pyRound (k : ℕ) (x : ℚ) : ℚ :=
  (roundHalfEven (x * 10 ^ k) : ℚ) / 10 ^ k

/-- A row of rates.csv after load_data: Start Date, band, rate. -/
structure RateEntry where
  startDate : ℤ
  band : String
  rate : ℚ
  deriving DecidableEq, Repr

/-- A row of bands.csv after load_data: band, Minimum, Maximum. -/
structure BandRange where
  band : String
  Minimum : ℚ
  Maximum : ℚ
  deriving DecidableEq, Repr

/-- A cleaned ledger row: Date, Change. -/
structure Transaction where
  date : ℤ
  change : ℚ
  deriving DecidableEq, Repr

/-- get_band_name (variant A): first bands row with
Minimum <= balance <= Maximum, no guard on the sign of the balance. -/
def get_band_name (bands : List BandRange) (balance : ℚ) : Option String :=
  ((bands.filter (fun r => decide (r.Minimum ≤ balance) && decide (balance ≤ r.Maximum))).head?).map
    (fun r => r.band)

/-- get_band_for_balance (variant B, OffRelease.py / AHHHAHAHA.py):
negative balances return no band, otherwise first matching row. -/
def get_band_for_balance (balance : ℚ) (bands : List BandRange) : Option String :=
  if balance < 0 then none
  else
    ((bands.filter (fun r => decide (r.Minimum ≤ balance) && decide (balance ≤ r.Maximum))).head?).map
      (fun r => r.band)

/-- The applicable rows of the rate table for a date and band:
Start Date <= date and band equal. -/
def ratesApplicable (rates : List RateEntry) (d : ℤ) (b : String) : List RateEntry :=
  rates.filter (fun e => decide (e.startDate ≤ d) && (e.band == b))

/-- get_rate_for_date_and_band (variant A): the LAST applicable row in
table order (pandas iloc[-1] without sorting), default 0. -/
def get_rate_for_date_and_band (rates : List RateEntry) (d : ℤ) (b : String) : ℚ :=
  match (ratesApplicable rates d b).getLast? with
  | some e => e.rate
  | none => 0

/-- get_interest_rate (variant B): guard on an empty band name, then a
stable ascending sort of the applicable rows by Start Date and the last
row of the sorted list (pandas sort_values then iloc[-1]), default 0. -/
def get_interest_rate (rates : List RateEntry) (d : ℤ) (b : String) : ℚ :=
  if b == "" then 0
  else
    match ((ratesApplicable rates d b).mergeSort
        (fun a b => decide (a.startDate ≤ b.startDate))).getLast? with
    | some e => e.rate
    | none => 0

/-- pd.date_range(start, end): the inclusive integer interval, empty
when the end precedes the start. -/
def dateRange (s e : ℤ) : List ℤ :=
  (List.range (e + 1 - s).toNat).map (fun (i : ℕ) => s + (i : ℤ))

/-- The minimum transaction date (pandas Date min), none on an empty
ledger. -/
def txMinDate (tx : List Transaction) : Option ℤ :=
  match tx with
  | [] => none
  | t :: ts => some ((ts.map (fun u => u.date)).foldl min t.date)

/-- Whether the grouped-transactions map has a key for the date. -/
def hasTxOn (tx : List Transaction) (d : ℤ) : Bool :=
  tx.any (fun t => t.date == d)

/-- The groupby-sum of the Change column on one date. -/
def transSum (tx : List Transaction) (d : ℤ) : ℚ :=
  ((tx.filter (fun t => t.date == d)).map (fun t => t.change)).sum

/-- One day of balance update: add the netted same-day amount when the
date has transactions. -/
def applyTxOn (tx : List Transaction) (balance : ℚ) (d : ℤ) : ℚ :=
  if hasTxOn tx d then balance + transSum tx d else balance

/-- Truthiness of the looked-up band in python (None and the empty
string are falsy). -/
def truthyBand : Option String → Bool
  | none => false
  | some s => !(s == "")

/-- The Band column written by variant A: the band name, or N/A when
the lookup result is falsy. -/
def bandDisplayA : Option String → String
  | none => "N/A"
  | some s => if s == "" then "N/A" else s

/-- The Interest Band column written by variant B: the band name, or
None when the lookup result is falsy. -/
def bandDisplayB : Option String → String
  | none => "None"
  | some s => if s == "" then "None" else s

/-- A row of the variant A log (calculate_interest_with_steps):
Date, Balance, Band, Daily Rate in percent, Daily Interest,
Total Interest So Far. -/
structure LogEntryA where
  date : ℤ
  balance : ℚ
  band : String
  dailyRatePct : ℚ
  dailyInterest : ℚ
  totalSoFar : ℚ
  deriving DecidableEq, Repr

/-- A row of the variant B log (calculate_daily_interest):
Date, Balance, Interest Band, Annual Rate in percent, Daily Interest,
Cumulative Interest. -/
structure LogEntryB where
  date : ℤ
  balance : ℚ
  band : String
  annualRatePct : ℚ
  dailyInterest : ℚ
  cumulativeInterest : ℚ
  deriving DecidableEq, Repr

/-- One iteration of the variant A loop body: state is the pair of the
full-precision balance and total accumulators; the produced log row
carries the rounded display values. -/
def dayA (rates : List RateEntry) (bands : List BandRange) (tx : List Transaction)
    (st : ℚ × ℚ) (d : ℤ) : ℚ × ℚ × LogEntryA :=
  let bal := applyTxOn tx st.1 d
  let bandOpt := get_band_name bands bal
  let rate_di : ℚ × ℚ :=
    if truthyBand bandOpt then
      let rate := get_rate_for_date_and_band rates d (bandOpt.getD "") / 100 / 365
      (rate, bal * rate)
    else (0, 0)
  let tot := if truthyBand bandOpt then st.2 + rate_di.2 else st.2
  (bal, tot,
    ⟨d, pyRound 2 bal, bandDisplayA bandOpt, pyRound 4 (rate_di.1 * 365 * 100),
      pyRound 6 rate_di.2, pyRound 6 tot⟩)

/-- The variant A loop over the day list. -/
def runDaysA (rates : List RateEntry) (bands : List BandRange) (tx : List Transaction)
    (days : List ℤ) (bal tot : ℚ) : ℚ × ℚ × List LogEntryA :=
  match days with
  | [] => (bal, tot, [])
  | d :: ds =>
    let r := dayA rates bands tx (bal, tot) d
    let rest := runDaysA rates bands tx ds r.1 r.2.1
    (rest.1, rest.2.1, r.2.2 :: rest.2.2)

/-- calculate_interest_with_steps (variant A).  On an empty ledger the
python code raises (pandas date_range receives a missing start): this
is embedded as none. -/
def calculate_interest_with_steps (tx : List Transaction) (endDate : ℤ)
    (rates : List RateEntry) (bands : List BandRange) :
    Option (List LogEntryA × ℚ) :=
  match txMinDate tx with
  | none => none
  | some s =>
    let r := runDaysA rates bands tx (dateRange s endDate) 0 0
    some (r.2.2, pyRound 2 r.2.1)

/-- One iteration of the loop body of the unrounded copies of
calculate_interest_with_steps (app234.py, backup.py, streamlittest.py,
testapp.py, interest_calculator_cli.py, the first copy of AHHHAHAHA.py
and the third copy of OffRelease.py): identical to dayA except that the
Balance column of the log row is the raw unrounded balance. -/
def dayAU (rates : List RateEntry) (bands : List BandRange) (tx : List Transaction)
    (st : ℚ × ℚ) (d : ℤ) : ℚ × ℚ × LogEntryA :=
  let bal := applyTxOn tx st.1 d
  let bandOpt := get_band_name bands bal
  let rate_di : ℚ × ℚ :=
    if truthyBand bandOpt then
      let rate := get_rate_for_date_and_band rates d (bandOpt.getD "") / 100 / 365
      (rate, bal * rate)
    else (0, 0)
  let tot := if truthyBand bandOpt then st.2 + rate_di.2 else st.2
  (bal, tot,
    ⟨d, bal, bandDisplayA bandOpt, pyRound 4 (rate_di.1 * 365 * 100),
      pyRound 6 rate_di.2, pyRound 6 tot⟩)

/-- The loop of the unrounded calculate_interest_with_steps copies. -/
def runDaysAU (rates : List RateEntry) (bands : List BandRange) (tx : List Transaction)
    (days : List ℤ) (bal tot : ℚ) : ℚ × ℚ × List LogEntryA :=
  match days with
  | [] => (bal, tot, [])
  | d :: ds =>
    let r := dayAU rates bands tx (bal, tot) d
    let rest := runDaysAU rates bands tx ds r.1 r.2.1
    (rest.1, rest.2.1, r.2.2 :: rest.2.2)

/-- calculate_interest_with_steps as written in the unrounded copies:
same engine, raw balance in the log. -/
def calculate_interest_with_steps_unrounded (tx : List Transaction) (endDate : ℤ)
    (rates : List RateEntry) (bands : List BandRange) :
    Option (List LogEntryA × ℚ) :=
  match txMinDate tx with
  | none => none
  | some s =>
    let r := runDaysAU rates bands tx (dateRange s endDate) 0 0
    some (r.2.2, pyRound 2 r.2.1)

/-- Rounding of the Balance column only: the difference between the
two calculate_interest_with_steps sub-families. -/
def roundBalanceA (e : LogEntryA) : LogEntryA :=
  ⟨e.date, pyRound 2 e.balance, e.band, e.dailyRatePct, e.dailyInterest, e.totalSoFar⟩

/-- One iteration of the variant B loop body. -/
def dayB (rates : List RateEntry) (bands : List BandRange) (tx : List Transaction)
    (st : ℚ × ℚ) (d : ℤ) : ℚ × ℚ × LogEntryB :=
  let bal := applyTxOn tx st.1 d
  let bandOpt := get_band_for_balance bal bands
  let ar_di : ℚ × ℚ :=
    if truthyBand bandOpt && decide (0 < bal) then
      let annual := get_interest_rate rates d (bandOpt.getD "")
      (annual, bal * (annual / 100 / 365))
    else (0, 0)
  let tot := st.2 + ar_di.2
  (bal, tot,
    ⟨d, pyRound 2 bal, bandDisplayB bandOpt, pyRound 4 ar_di.1,
      pyRound 6 ar_di.2, pyRound 6 tot⟩)

/-- The variant B loop over the day list. -/
def runDaysB (rates : List RateEntry) (bands : List BandRange) (tx : List Transaction)
    (days : List ℤ) (bal tot : ℚ) : ℚ × ℚ × List LogEntryB :=
  match days with
  | [] => (bal, tot, [])
  | d :: ds =>
    let r := dayB rates bands tx (bal, tot) d
    let rest := runDaysB rates bands tx ds r.1 r.2.1
    (rest.1, rest.2.1, r.2.2 :: rest.2.2)

/-- calculate_daily_interest (variant B).  On an empty ledger the
python code raises, embedded as none. -/
def calculate_daily_interest (tx : List Transaction) (endDate : ℤ)
    (rates : List RateEntry) (bands : List BandRange) :
    Option (List LogEntryB × ℚ) :=
  match txMinDate tx with
  | none => none
  | some s =>
    let r := runDaysB rates bands tx (dateRange s endDate) 0 0
    some (r.2.2, pyRound 2 r.2.1)


/-!  Shared helper lemmas. -/

/-- When the scaled value is an exact integer, python rounding returns
the value unchanged. -/
theorem pyRound_eq_self {k : ℕ} {x : ℚ} (h : Int.fract (x * 10 ^ k) = 0) :
    pyRound k x = x := by
  have hfl : (⌊x * 10 ^ k⌋ : ℚ) = x * 10 ^ k := by
    have h2 := Int.fract_add_floor (x * 10 ^ k)
    rw [h] at h2; linarith
  have h10 : ((10:ℚ) ^ k) ≠ 0 := by positivity
  simp only [pyRound, roundHalfEven]
  rw [show x * 10 ^ k - (⌊x * 10 ^ k⌋ : ℚ) = 0 by rw [hfl]; ring]
  norm_num
  rw [hfl]
  field_simp

/-- Rounding fixes zero at every precision. -/
theorem pyRound_zero (k : ℕ) : pyRound k 0 = 0 := by
  apply pyRound_eq_self
  norm_num [Int.fract]

/-!  C2: the end-to-end example. -/

/-- C2: with transactions [(day 0, +1000)], end date day 2, band table
[(Low, 0, 2000)] and rate table [(day 0, Low, 3.65)], both engine
variants return a log of exactly 3 entries, each with balance 1000 and
daily interest 1/10, cumulative interest 1/10, 2/10, 3/10, and a final
total of 3/10 (0.30 after rounding to 2 decimals). -/
theorem c2_end_to_end_example :
    calculate_interest_with_steps [⟨0, 1000⟩] 2 [⟨0, "Low", 73/20⟩] [⟨"Low", 0, 2000⟩] =
      some ([⟨0, 1000, "Low", 73/20, 1/10, 1/10⟩,
             ⟨1, 1000, "Low", 73/20, 1/10, 1/5⟩,
             ⟨2, 1000, "Low", 73/20, 1/10, 3/10⟩], 3/10) ∧
    calculate_daily_interest [⟨0, 1000⟩] 2 [⟨0, "Low", 73/20⟩] [⟨"Low", 0, 2000⟩] =
      some ([⟨0, 1000, "Low", 73/20, 1/10, 1/10⟩,
             ⟨1, 1000, "Low", 73/20, 1/10, 1/5⟩,
             ⟨2, 1000, "Low", 73/20, 1/10, 3/10⟩], 3/10) := by
  constructor <;>
    · norm_num +decide [calculate_interest_with_steps, calculate_daily_interest, txMinDate,
        dateRange, runDaysA, runDaysB, dayA, dayB, applyTxOn, hasTxOn, transSum,
        get_band_name, get_band_for_balance, get_rate_for_date_and_band, get_interest_rate,
        ratesApplicable, truthyBand, bandDisplayA, bandDisplayB, List.filter, List.range,
        List.range.loop]
      repeat' apply And.intro
      all_goals apply pyRound_eq_self
      all_goals norm_num [Int.fract]

/-!  C10: the empty ledger. -/

/-- C10: on an empty transaction list both engines fail (the python
code raises inside pandas date_range because no minimum date exists;
this is embedded as the none result), so no log entry and no total is
ever produced. -/
theorem c10_empty_ledger_fails (endDate : ℤ) (rates : List RateEntry)
    (bands : List BandRange) :
    calculate_interest_with_steps [] endDate rates bands = none ∧
    calculate_daily_interest [] endDate rates bands = none := by
  constructor <;> rfl

/-!  C1: non-positive balances in the accrual loop. -/

/-- C1 counterexample: in the calculate_interest_with_steps variant a
day whose netted balance is negative still accrues interest whenever a
band range contains the balance.  With a single band (N, -1000, 1000),
a rate of 365 percent and one transaction of -100 on day 0, the day-0
log row carries annual rate 365 and daily interest -1, and the
returned total is -1, refuting the claim that a non-positive balance
always yields rate 0 and interest 0. -/
theorem c1_counterexample :
    calculate_interest_with_steps [⟨0, -100⟩] 0 [⟨0, "N", 365⟩] [⟨"N", -1000, 1000⟩] =
      some ([⟨0, -100, "N", 365, -1, -1⟩], -1) ∧ ((-1 : ℚ) ≠ 0) ∧ ((365 : ℚ) ≠ 0) := by
  refine ⟨?_, by norm_num, by norm_num⟩
  norm_num +decide [calculate_interest_with_steps, txMinDate, dateRange, runDaysA, dayA,
    applyTxOn, hasTxOn, transSum, get_band_name, get_rate_for_date_and_band,
    ratesApplicable, truthyBand, bandDisplayA, List.filter, List.range, List.range.loop]
  repeat' apply And.intro
  all_goals apply pyRound_eq_self
  all_goals norm_num [Int.fract]

/-- C1 amended: in the calculate_daily_interest variant
(OffRelease.py, AHHHAHAHA.py) the claim holds: on any loop day whose
balance after applying the netted transactions is non-positive, the
annual rate and the daily interest of that day are exactly 0 and the
total accumulator is unchanged, regardless of the band table. -/
theorem c1_nonpos_balance_never_accrues (rates : List RateEntry) (bands : List BandRange)
    (tx : List Transaction) (st : ℚ × ℚ) (d : ℤ)
    (h : applyTxOn tx st.1 d ≤ 0) :
    (dayB rates bands tx st d).1 = applyTxOn tx st.1 d ∧
    (dayB rates bands tx st d).2.1 = st.2 ∧
    (dayB rates bands tx st d).2.2.annualRatePct = 0 ∧
    (dayB rates bands tx st d).2.2.dailyInterest = 0 := by
  have hlt : decide (0 < applyTxOn tx st.1 d) = false := by
    simp [not_lt.2 h]
  simp only [dayB, hlt, Bool.and_false, if_false, Bool.false_eq_true, pyRound_zero]
  repeat' apply And.intro
  all_goals first
    | trivial
    | ring

/-- C1 witness: the amended theorem applied at a concrete input with a
negative balance. -/
theorem c1_witness :
    applyTxOn [⟨0, -5⟩] 0 0 ≤ 0 ∧
    (dayB [⟨0, "N", 365⟩] [⟨"N", -1000, 1000⟩] [⟨0, -5⟩] (0, 0) 0).2.2.dailyInterest = 0 := by
  have h : applyTxOn [⟨0, -5⟩] (0:ℚ) 0 ≤ 0 := by
    norm_num +decide [applyTxOn, hasTxOn, transSum, List.filter]
  exact ⟨h, (c1_nonpos_balance_never_accrues [⟨0, "N", 365⟩] [⟨"N", -1000, 1000⟩]
    [⟨0, -5⟩] (0, 0) 0 h).2.2.2⟩

/-!  C4: band lookup on negative balances. -/

/-- C4 counterexample: the get_band_name variant has no sign guard, so
a band table whose range contains a negative balance resolves that
balance to a band.  With the single range (N, -500, 0), the balance
-100 resolves to band N rather than to no band, refuting the claim for
this lookup. -/
theorem c4_counterexample :
    get_band_name [⟨"N", -500, 0⟩] (-100) = some "N" ∧
    (some "N" : Option String) ≠ none := by
  constructor
  · norm_num +decide [get_band_name, List.filter]
  · simp

/-- C4 amended: the get_band_for_balance variant (OffRelease.py,
AHHHAHAHA.py) returns no band for every strictly negative balance,
regardless of the minimum and maximum values of the ranges in the
table; the get_band_name variants instead return the first range that
contains the balance even when it is negative. -/
theorem c4_negative_balance_no_band (balance : ℚ) (bands : List BandRange)
    (h : balance < 0) :
    get_band_for_balance balance bands = none := by
  simp [get_band_for_balance, h]

/-- C4 witness: the amended theorem applied to balance -1 with a range
that contains it. -/
theorem c4_witness :
    (-1 : ℚ) < 0 ∧ get_band_for_balance (-1) [⟨"N", -500, 0⟩] = none :=
  ⟨by norm_num, c4_negative_balance_no_band (-1) [⟨"N", -500, 0⟩] (by norm_num)⟩

/-!  C3: rate lookup. -/

/-- C3 counterexample: the get_rate_for_date_and_band variant takes the
last applicable row in table order without sorting, so on a table that
is not sorted ascending by effective date it does not return the rate
of the latest effective entry, and its result depends on the order of
the entries: with rows (day 2, A, 5) and (day 1, A, 3) queried on day
3 it returns 3, while on the reversed table it returns 5. -/
theorem c3_counterexample :
    get_rate_for_date_and_band [⟨2, "A", 5⟩, ⟨1, "A", 3⟩] 3 "A" = 3 ∧
    get_rate_for_date_and_band [⟨1, "A", 3⟩, ⟨2, "A", 5⟩] 3 "A" = 5 ∧
    (3 : ℚ) ≠ 5 := by
  refine ⟨?_, ?_, by norm_num⟩ <;>
    norm_num +decide [get_rate_for_date_and_band, ratesApplicable, List.filter]

/-- C3 amended: the get_interest_rate variant (OffRelease.py,
AHHHAHAHA.py) satisfies the claim in the following form: for a
non-empty band name, if no entry has the requested band with effective
date on or before the query date the result is 0, and otherwise the
result is the rate of an applicable entry whose effective date is
maximal among the applicable entries (the last-listed such entry under
the stable sort).  The get_rate_for_date_and_band variant instead
returns the last-listed applicable row, which agrees with this only
when the table is sorted ascending by effective date. -/
theorem c3_latest_effective_rate (rates : List RateEntry) (d : ℤ) (b : String)
    (hb : b ≠ "") :
    (ratesApplicable rates d b = [] → get_interest_rate rates d b = 0) ∧
    (ratesApplicable rates d b ≠ [] →
      ∃ e ∈ ratesApplicable rates d b,
        get_interest_rate rates d b = e.rate ∧ e.startDate ≤ d ∧ e.band = b ∧
        ∀ f ∈ ratesApplicable rates d b, f.startDate ≤ e.startDate) := by
  have hbeq : (b == "") = false := by
    simp [hb]
  constructor
  · intro happ
    simp [get_interest_rate, hbeq, happ]
  · intro happ
    set le : RateEntry → RateEntry → Bool := fun a b => decide (a.startDate ≤ b.startDate)
      with hle
    have hperm := List.mergeSort_perm (ratesApplicable rates d b) le
    have hsorted : ((ratesApplicable rates d b).mergeSort le).Pairwise
        (fun a b => le a b) := by
      apply List.sorted_mergeSort
      · intro a b c hab hbc
        simp only [hle, decide_eq_true_eq] at hab hbc ⊢
        exact le_trans hab hbc
      · intro a b
        simp only [hle, Bool.or_eq_true, decide_eq_true_eq]
        exact le_total a.startDate b.startDate
    have hne : (ratesApplicable rates d b).mergeSort le ≠ [] := by
      intro hnil
      exact happ (hnil ▸ hperm).symm.eq_nil
    obtain ⟨e, he⟩ := Option.isSome_iff_exists.1 (List.getLast?_isSome.2 hne)
    obtain ⟨ys, hys⟩ := List.getLast?_eq_some_iff.1 he
    have hmemL : e ∈ (ratesApplicable rates d b).mergeSort le := by
      rw [hys]
      simp
    have hmem : e ∈ ratesApplicable rates d b := hperm.mem_iff.1 hmemL
    have hfields : e.startDate ≤ d ∧ e.band = b := by
      have := (List.mem_filter.1 hmem).2
      simp only [Bool.and_eq_true, decide_eq_true_eq, beq_iff_eq] at this
      exact this
    refine ⟨e, hmem, ?_, hfields.1, hfields.2, ?_⟩
    · simp [get_interest_rate, hbeq, he]
    · intro f hf
      have hfL : f ∈ (ratesApplicable rates d b).mergeSort le := hperm.mem_iff.2 hf
      rw [hys] at hfL hsorted
      rcases List.mem_append.1 hfL with hys' | hsing
      · have := (List.pairwise_append.1 hsorted).2.2 f hys' e (by simp)
        simpa [hle] using this
      · simp only [List.mem_singleton] at hsing
        exact hsing ▸ le_refl _

/-- C3 witness: the amended theorem applied to a concrete one-row
table. -/
theorem c3_witness :
    ("A" : String) ≠ "" ∧
    (ratesApplicable [⟨0, "A", 2⟩] 1 "A" ≠ [] →
      ∃ e ∈ ratesApplicable [⟨0, "A", 2⟩] 1 "A",
        get_interest_rate [⟨0, "A", 2⟩] 1 "A" = e.rate ∧ e.startDate ≤ 1 ∧ e.band = "A" ∧
        ∀ f ∈ ratesApplicable [⟨0, "A", 2⟩] 1 "A", f.startDate ≤ e.startDate) :=
  ⟨by decide, (c3_latest_effective_rate [⟨0, "A", 2⟩] 1 "A" (by decide)).2⟩

/-!  C7: overlapping band ranges resolve to the first listed range. -/

/-- Helper: the head of a filtered list is the first element satisfying
the predicate. -/
theorem head?_filter_eq_find? {α : Type} (p : α → Bool) (l : List α) :
    (l.filter p).head? = l.find? p := by
  induction l with
  | nil => rfl
  | cons x xs ih =>
    by_cases hx : p x <;> simp [List.filter_cons, List.find?_cons, hx, ih]

/-- C7: for a non-negative balance both band lookups return the band
of the FIRST row of the table whose range contains the balance, so a
balance inside two overlapping ranges resolves to the first-listed one;
in particular with ranges (A, 0, 1000) and (B, 500, 1500) the balance
700 resolves to band A, not B, under both lookups. -/
theorem c7_first_matching_band (bands : List BandRange) (balance : ℚ)
    (h : 0 ≤ balance) :
    get_band_for_balance balance bands = get_band_name bands balance ∧
    get_band_name bands balance =
      (bands.find? (fun r => decide (r.Minimum ≤ balance) && decide (balance ≤ r.Maximum))).map
        (fun r => r.band) ∧
    get_band_name [⟨"A", 0, 1000⟩, ⟨"B", 500, 1500⟩] 700 = some "A" ∧
    get_band_for_balance 700 [⟨"A", 0, 1000⟩, ⟨"B", 500, 1500⟩] = some "A" := by
  refine ⟨?_, ?_, ?_, ?_⟩
  · simp [get_band_for_balance, get_band_name, not_lt.2 h]
  · simp [get_band_name, head?_filter_eq_find?]
  · norm_num +decide [get_band_name, List.filter]
  · norm_num +decide [get_band_for_balance, List.filter]

/-- C7 witness: the theorem applied at balance 700 with the
overlapping table. -/
theorem c7_witness :
    (0 : ℚ) ≤ 700 ∧
    get_band_for_balance 700 [⟨"A", 0, 1000⟩, ⟨"B", 500, 1500⟩] =
      get_band_name [⟨"A", 0, 1000⟩, ⟨"B", 500, 1500⟩] 700 :=
  ⟨by norm_num,
    (c7_first_matching_band [⟨"A", 0, 1000⟩, ⟨"B", 500, 1500⟩] 700 (by norm_num)).1⟩

/-!  C5: date coverage of the log. -/

/-- Membership in the embedded date range is exactly the inclusive
interval. -/
theorem mem_dateRange {s e d : ℤ} : d ∈ dateRange s e ↔ s ≤ d ∧ d ≤ e := by
  unfold dateRange
  rw [List.mem_map]
  constructor
  · rintro ⟨i, hi, rfl⟩
    rw [List.mem_range] at hi
    omega
  · intro hd
    refine ⟨(d - s).toNat, ?_, by omega⟩
    rw [List.mem_range]
    omega

/-- The embedded date range is strictly increasing. -/
theorem dateRange_pairwise (s e : ℤ) :
    (dateRange s e).Pairwise (fun a b => a < b) := by
  unfold dateRange
  refine List.Pairwise.map _ (fun a b hab => ?_) (List.pairwise_lt_range _)
  omega

/-- Each date of the interval occurs exactly once in the range, and
dates outside it never occur. -/
theorem dateRange_count (s e d : ℤ) :
    (dateRange s e).count d = if s ≤ d ∧ d ≤ e then 1 else 0 := by
  have hnd : (dateRange s e).Nodup :=
    (dateRange_pairwise s e).imp (fun hab => by omega)
  by_cases hd : s ≤ d ∧ d ≤ e
  · rw [if_pos hd]
    exact List.count_eq_one_of_mem hnd (mem_dateRange.2 hd)
  · rw [if_neg hd]
    exact List.count_eq_zero_of_not_mem (fun hm => hd (mem_dateRange.1 hm))

/-- The dates of the variant A log are exactly the day list. -/
theorem runDaysA_dates (rates : List RateEntry) (bands : List BandRange)
    (tx : List Transaction) :
    ∀ (days : List ℤ) (bal tot : ℚ),
      ((runDaysA rates bands tx days bal tot).2.2).map (fun e => e.date) = days := by
  intro days
  induction days with
  | nil => intro bal tot; rfl
  | cons d ds ih =>
    intro bal tot
    simp [runDaysA, dayA, ih]

/-- The dates of the variant B log are exactly the day list. -/
theorem runDaysB_dates (rates : List RateEntry) (bands : List BandRange)
    (tx : List Transaction) :
    ∀ (days : List ℤ) (bal tot : ℚ),
      ((runDaysB rates bands tx days bal tot).2.2).map (fun e => e.date) = days := by
  intro days
  induction days with
  | nil => intro bal tot; rfl
  | cons d ds ih =>
    intro bal tot
    simp [runDaysB, dayB, ih]

/-- C5: on a non-empty ledger both engines return a log whose date
column is exactly the inclusive interval from the minimum transaction
date to the end date: strictly ascending, one entry per date of the
interval, no entry outside it, and empty when the end date precedes
the first transaction date. -/
theorem c5_log_dates (tx : List Transaction) (endDate : ℤ) (rates : List RateEntry)
    (bands : List BandRange) (s : ℤ) (h : txMinDate tx = some s) :
    ∃ logA totA logB totB,
      calculate_interest_with_steps tx endDate rates bands = some (logA, totA) ∧
      calculate_daily_interest tx endDate rates bands = some (logB, totB) ∧
      logA.map (fun e => e.date) = dateRange s endDate ∧
      logB.map (fun e => e.date) = dateRange s endDate ∧
      (dateRange s endDate).Pairwise (fun a b => a < b) ∧
      (∀ d : ℤ, (dateRange s endDate).count d = if s ≤ d ∧ d ≤ endDate then 1 else 0) ∧
      (endDate < s → dateRange s endDate = []) := by
  refine ⟨(runDaysA rates bands tx (dateRange s endDate) 0 0).2.2,
    pyRound 2 (runDaysA rates bands tx (dateRange s endDate) 0 0).2.1,
    (runDaysB rates bands tx (dateRange s endDate) 0 0).2.2,
    pyRound 2 (runDaysB rates bands tx (dateRange s endDate) 0 0).2.1,
    ?_, ?_, ?_, ?_, ?_, ?_, ?_⟩
  · simp [calculate_interest_with_steps, h]
  · simp [calculate_daily_interest, h]
  · exact runDaysA_dates rates bands tx (dateRange s endDate) 0 0
  · exact runDaysB_dates rates bands tx (dateRange s endDate) 0 0
  · exact dateRange_pairwise s endDate
  · exact dateRange_count s endDate
  · intro h2
    simp [dateRange, Int.toNat_eq_zero.2 (by omega : endDate + 1 - s ≤ 0)]

/-- C5 witness: the theorem applied to a one-transaction ledger. -/
theorem c5_witness :
    txMinDate [⟨0, 5⟩] = some 0 ∧
    ∃ logA totA logB totB,
      calculate_interest_with_steps [⟨0, 5⟩] 1 [] [] = some (logA, totA) ∧
      calculate_daily_interest [⟨0, 5⟩] 1 [] [] = some (logB, totB) ∧
      logA.map (fun e => e.date) = dateRange 0 1 ∧
      logB.map (fun e => e.date) = dateRange 0 1 ∧
      (dateRange 0 1).Pairwise (fun a b => a < b) ∧
      (∀ d : ℤ, (dateRange 0 1).count d = if 0 ≤ d ∧ d ≤ 1 then 1 else 0) ∧
      ((1 : ℤ) < 0 → dateRange 0 1 = []) :=
  ⟨rfl, c5_log_dates [⟨0, 5⟩] 1 [] [] 0 rfl⟩

/-!  C6: same-day netting. -/

/-- Folding min over a duplicated head absorbs the duplicate. -/
theorem foldl_min_dd (l : List ℤ) (d i : ℤ) :
    (d :: d :: l).foldl min i = (d :: l).foldl min i := by
  simp only [List.foldl_cons]
  rw [min_assoc, min_self]

/-- Replacing two same-day rows by their sum preserves the minimum
transaction date. -/
theorem txMinDate_netted (l1 l2 : List Transaction) (d : ℤ) (x y : ℚ) :
    txMinDate (l1 ++ ⟨d, x⟩ :: ⟨d, y⟩ :: l2) = txMinDate (l1 ++ ⟨d, x + y⟩ :: l2) := by
  cases l1 with
  | nil =>
    simp only [List.nil_append, txMinDate, List.map_cons]
    simp [List.foldl_cons, min_self]
  | cons t ts =>
    simp only [List.cons_append, txMinDate, List.map_append, List.map_cons,
      List.foldl_append]
    rw [foldl_min_dd]

/-- Replacing two same-day rows by their sum preserves the presence of
transactions on every date. -/
theorem hasTxOn_netted (l1 l2 : List Transaction) (d : ℤ) (x y : ℚ) (q : ℤ) :
    hasTxOn (l1 ++ ⟨d, x⟩ :: ⟨d, y⟩ :: l2) q = hasTxOn (l1 ++ ⟨d, x + y⟩ :: l2) q := by
  simp only [hasTxOn, List.any_append, List.any_cons]
  cases hq : ((⟨d, x⟩ : Transaction).date == q) <;>
    cases l1.any (fun t => t.date == q) <;>
    cases l2.any (fun t => t.date == q) <;> simp_all

/-- Replacing two same-day rows by their sum preserves the per-date
netted amount. -/
theorem transSum_netted (l1 l2 : List Transaction) (d : ℤ) (x y : ℚ) (q : ℤ) :
    transSum (l1 ++ ⟨d, x⟩ :: ⟨d, y⟩ :: l2) q = transSum (l1 ++ ⟨d, x + y⟩ :: l2) q := by
  by_cases hq : d = q
  · subst hq
    simp [transSum, List.filter_append, List.filter_cons]
    ring
  · have hq2 : (d == q) = false := by
      simp [hq]
    simp [transSum, List.filter_append, List.filter_cons, hq2]

/-- Two ledgers with the same per-date presence and netted amounts give
the same variant A loop run. -/
theorem runDaysA_congr (rates : List RateEntry) (bands : List BandRange)
    (tx1 tx2 : List Transaction)
    (h1 : ∀ q, hasTxOn tx1 q = hasTxOn tx2 q)
    (h2 : ∀ q, transSum tx1 q = transSum tx2 q) :
    ∀ (days : List ℤ) (bal tot : ℚ),
      runDaysA rates bands tx1 days bal tot = runDaysA rates bands tx2 days bal tot := by
  intro days
  induction days with
  | nil => intro bal tot; rfl
  | cons q ds ih =>
    intro bal tot
    have hday : dayA rates bands tx1 (bal, tot) q = dayA rates bands tx2 (bal, tot) q := by
      simp only [dayA, applyTxOn, h1 q, h2 q]
    simp only [runDaysA, hday, ih]

/-- Two ledgers with the same per-date presence and netted amounts give
the same variant B loop run. -/
theorem runDaysB_congr (rates : List RateEntry) (bands : List BandRange)
    (tx1 tx2 : List Transaction)
    (h1 : ∀ q, hasTxOn tx1 q = hasTxOn tx2 q)
    (h2 : ∀ q, transSum tx1 q = transSum tx2 q) :
    ∀ (days : List ℤ) (bal tot : ℚ),
      runDaysB rates bands tx1 days bal tot = runDaysB rates bands tx2 days bal tot := by
  intro days
  induction days with
  | nil => intro bal tot; rfl
  | cons q ds ih =>
    intro bal tot
    have hday : dayB rates bands tx1 (bal, tot) q = dayB rates bands tx2 (bal, tot) q := by
      simp only [dayB, applyTxOn, h1 q, h2 q]
    simp only [runDaysB, hday, ih]

/-- C6: replacing two transactions on the same date by one transaction
carrying their sum leaves the full output of both engines unchanged:
the same log and the same returned total.  Same-day amounts therefore
act as a single netted balance delta. -/
theorem c6_same_day_netting (rates : List RateEntry) (bands : List BandRange)
    (endDate d : ℤ) (x y : ℚ) (l1 l2 : List Transaction) :
    calculate_interest_with_steps (l1 ++ ⟨d, x⟩ :: ⟨d, y⟩ :: l2) endDate rates bands =
      calculate_interest_with_steps (l1 ++ ⟨d, x + y⟩ :: l2) endDate rates bands ∧
    calculate_daily_interest (l1 ++ ⟨d, x⟩ :: ⟨d, y⟩ :: l2) endDate rates bands =
      calculate_daily_interest (l1 ++ ⟨d, x + y⟩ :: l2) endDate rates bands := by
  have hmin := txMinDate_netted l1 l2 d x y
  have h1 := hasTxOn_netted l1 l2 d x y
  have h2 := transSum_netted l1 l2 d x y
  constructor
  · simp only [calculate_interest_with_steps, hmin]
    cases txMinDate (l1 ++ ⟨d, x + y⟩ :: l2) with
    | none => rfl
    | some s => simp only [runDaysA_congr rates bands _ _ h1 h2]
  · simp only [calculate_daily_interest, hmin]
    cases txMinDate (l1 ++ ⟨d, x + y⟩ :: l2) with
    | none => rfl
    | some s => simp only [runDaysB_congr rates bands _ _ h1 h2]

/-!  C8: two-tier precision. -/

/-- Specification-side full-precision log row: the same quantities the
loop computes, before any display rounding (the rate field is the daily
decimal rate held by the loop variable). -/
structure RawEntryA where
  date : ℤ
  balance : ℚ
  band : String
  rate : ℚ
  dailyInterest : ℚ
  totalSoFar : ℚ
  deriving DecidableEq, Repr

/-- Specification-side loop body of variant A at full precision: same
control flow as dayA, no rounding anywhere. -/
def rawDayA (rates : List RateEntry) (bands : List BandRange) (tx : List Transaction)
    (st : ℚ × ℚ) (d : ℤ) : ℚ × ℚ × RawEntryA :=
  let bal := applyTxOn tx st.1 d
  let bandOpt := get_band_name bands bal
  let rate_di : ℚ × ℚ :=
    if truthyBand bandOpt then
      let rate := get_rate_for_date_and_band rates d (bandOpt.getD "") / 100 / 365
      (rate, bal * rate)
    else (0, 0)
  let tot := if truthyBand bandOpt then st.2 + rate_di.2 else st.2
  (bal, tot, ⟨d, bal, bandDisplayA bandOpt, rate_di.1, rate_di.2, tot⟩)

/-- Specification-side loop of variant A at full precision. -/
def rawRunA (rates : List RateEntry) (bands : List BandRange) (tx : List Transaction)
    (days : List ℤ) (bal tot : ℚ) : ℚ × ℚ × List RawEntryA :=
  match days with
  | [] => (bal, tot, [])
  | d :: ds =>
    let r := rawDayA rates bands tx (bal, tot) d
    let rest := rawRunA rates bands tx ds r.1 r.2.1
    (rest.1, rest.2.1, r.2.2 :: rest.2.2)

/-- Display rounding of one full-precision row, as written into the
log: balance to 2 decimals, rate (as an annual percentage) to 4,
interest figures to 6. -/
def roundEntryA (e : RawEntryA) : LogEntryA :=
  ⟨e.date, pyRound 2 e.balance, e.band, pyRound 4 (e.rate * 365 * 100),
    pyRound 6 e.dailyInterest, pyRound 6 e.totalSoFar⟩

/-- The engine day step is the rounding of the full-precision day step;
in particular the engine accumulators are the full-precision ones. -/
theorem dayA_raw (rates : List RateEntry) (bands : List BandRange)
    (tx : List Transaction) (st : ℚ × ℚ) (d : ℤ) :
    dayA rates bands tx st d =
      ((rawDayA rates bands tx st d).1, (rawDayA rates bands tx st d).2.1,
        roundEntryA (rawDayA rates bands tx st d).2.2) := rfl

/-- The engine loop carries the full-precision accumulators and logs
the pointwise rounding of the full-precision trace. -/
theorem runDaysA_raw (rates : List RateEntry) (bands : List BandRange)
    (tx : List Transaction) :
    ∀ (days : List ℤ) (bal tot : ℚ),
      runDaysA rates bands tx days bal tot =
        ((rawRunA rates bands tx days bal tot).1,
         (rawRunA rates bands tx days bal tot).2.1,
         ((rawRunA rates bands tx days bal tot).2.2).map roundEntryA) := by
  intro days
  induction days with
  | nil => intro bal tot; rfl
  | cons d ds ih =>
    intro bal tot
    simp only [runDaysA, rawRunA, dayA_raw, ih, List.map_cons]

/-- One full-precision step adds exactly its daily interest to the
total accumulator. -/
theorem rawDayA_tot (rates : List RateEntry) (bands : List BandRange)
    (tx : List Transaction) (st : ℚ × ℚ) (d : ℤ) :
    (rawDayA rates bands tx st d).2.1 =
      st.2 + (rawDayA rates bands tx st d).2.2.dailyInterest := by
  simp only [rawDayA]
  split
  · rfl
  · ring

/-- The final full-precision total is the initial total plus the sum of
all full-precision daily interests. -/
theorem rawRunA_total (rates : List RateEntry) (bands : List BandRange)
    (tx : List Transaction) :
    ∀ (days : List ℤ) (bal tot : ℚ),
      (rawRunA rates bands tx days bal tot).2.1 =
        tot + (((rawRunA rates bands tx days bal tot).2.2).map
          (fun e => e.dailyInterest)).sum := by
  intro days
  induction days with
  | nil => intro bal tot; simp [rawRunA]
  | cons d ds ih =>
    intro bal tot
    simp only [rawRunA, List.map_cons, List.sum_cons]
    rw [ih, rawDayA_tot]
    ring

/-- Every full-precision cumulative field is the exact running prefix
sum of the full-precision daily interests. -/
theorem rawRunA_cumulative (rates : List RateEntry) (bands : List BandRange)
    (tx : List Transaction) :
    ∀ (days : List ℤ) (bal tot : ℚ) (n : ℕ) (e : RawEntryA),
      ((rawRunA rates bands tx days bal tot).2.2).get? n = some e →
      e.totalSoFar = tot +
        ((((rawRunA rates bands tx days bal tot).2.2).take (n + 1)).map
          (fun r => r.dailyInterest)).sum := by
  intro days
  induction days with
  | nil =>
    intro bal tot n e he
    simp [rawRunA] at he
  | cons d ds ih =>
    intro bal tot n e he
    simp only [rawRunA] at he ⊢
    cases n with
    | zero =>
      simp only [List.get?_cons_zero, Option.some_inj] at he
      subst he
      simp only [List.take_succ_cons, List.take_zero, List.map_cons, List.map_nil,
        List.sum_cons, List.sum_nil, add_zero]
      have := rawDayA_tot rates bands tx (bal, tot) d
      simp only [rawDayA] at this ⊢
      split at this <;> split <;> simp_all
    | succ m =>
      simp only [List.get?_cons_succ] at he
      have := ih (rawDayA rates bands tx (bal, tot) d).1
        (rawDayA rates bands tx (bal, tot) d).2.1 m e he
      rw [this, rawDayA_tot]
      simp only [List.take_succ_cons, List.map_cons, List.sum_cons]
      ring

/-- Specification-side full-precision log row of variant B, before any
display rounding. -/
structure RawEntryB where
  date : ℤ
  balance : ℚ
  band : String
  annualRatePct : ℚ
  dailyInterest : ℚ
  cumulativeInterest : ℚ
  deriving DecidableEq, Repr

/-- Specification-side loop body of variant B at full precision: same
control flow as dayB, no rounding anywhere. -/
def rawDayB (rates : List RateEntry) (bands : List BandRange) (tx : List Transaction)
    (st : ℚ × ℚ) (d : ℤ) : ℚ × ℚ × RawEntryB :=
  let bal := applyTxOn tx st.1 d
  let bandOpt := get_band_for_balance bal bands
  let ar_di : ℚ × ℚ :=
    if truthyBand bandOpt && decide (0 < bal) then
      let annual := get_interest_rate rates d (bandOpt.getD "")
      (annual, bal * (annual / 100 / 365))
    else (0, 0)
  let tot := st.2 + ar_di.2
  (bal, tot, ⟨d, bal, bandDisplayB bandOpt, ar_di.1, ar_di.2, tot⟩)

/-- Specification-side loop of variant B at full precision. -/
def rawRunB (rates : List RateEntry) (bands : List BandRange) (tx : List Transaction)
    (days : List ℤ) (bal tot : ℚ) : ℚ × ℚ × List RawEntryB :=
  match days with
  | [] => (bal, tot, [])
  | d :: ds =>
    let r := rawDayB rates bands tx (bal, tot) d
    let rest := rawRunB rates bands tx ds r.1 r.2.1
    (rest.1, rest.2.1, r.2.2 :: rest.2.2)

/-- Display rounding of one full-precision variant B row, as written
into the log: balance to 2 decimals, annual rate to 4, interest
figures to 6. -/
def roundEntryB (e : RawEntryB) : LogEntryB :=
  ⟨e.date, pyRound 2 e.balance, e.band, pyRound 4 e.annualRatePct,
    pyRound 6 e.dailyInterest, pyRound 6 e.cumulativeInterest⟩

/-- The variant B engine day step is the rounding of the full-precision
day step. -/
theorem dayB_raw (rates : List RateEntry) (bands : List BandRange)
    (tx : List Transaction) (st : ℚ × ℚ) (d : ℤ) :
    dayB rates bands tx st d =
      ((rawDayB rates bands tx st d).1, (rawDayB rates bands tx st d).2.1,
        roundEntryB (rawDayB rates bands tx st d).2.2) := rfl

/-- The variant B loop carries the full-precision accumulators and logs
the pointwise rounding of the full-precision trace. -/
theorem runDaysB_raw (rates : List RateEntry) (bands : List BandRange)
    (tx : List Transaction) :
    ∀ (days : List ℤ) (bal tot : ℚ),
      runDaysB rates bands tx days bal tot =
        ((rawRunB rates bands tx days bal tot).1,
         (rawRunB rates bands tx days bal tot).2.1,
         ((rawRunB rates bands tx days bal tot).2.2).map roundEntryB) := by
  intro days
  induction days with
  | nil => intro bal tot; rfl
  | cons d ds ih =>
    intro bal tot
    simp only [runDaysB, rawRunB, dayB_raw, ih, List.map_cons]

/-- One full-precision variant B step adds exactly its daily interest
to the total accumulator. -/
theorem rawDayB_tot (rates : List RateEntry) (bands : List BandRange)
    (tx : List Transaction) (st : ℚ × ℚ) (d : ℤ) :
    (rawDayB rates bands tx st d).2.1 =
      st.2 + (rawDayB rates bands tx st d).2.2.dailyInterest := rfl

/-- The final full-precision variant B total is the initial total plus
the sum of all full-precision daily interests. -/
theorem rawRunB_total (rates : List RateEntry) (bands : List BandRange)
    (tx : List Transaction) :
    ∀ (days : List ℤ) (bal tot : ℚ),
      (rawRunB rates bands tx days bal tot).2.1 =
        tot + (((rawRunB rates bands tx days bal tot).2.2).map
          (fun e => e.dailyInterest)).sum := by
  intro days
  induction days with
  | nil => intro bal tot; simp [rawRunB]
  | cons d ds ih =>
    intro bal tot
    simp only [rawRunB, List.map_cons, List.sum_cons]
    rw [ih, rawDayB_tot]
    ring

/-- Every full-precision variant B cumulative field is the exact
running prefix sum of the full-precision daily interests. -/
theorem rawRunB_cumulative (rates : List RateEntry) (bands : List BandRange)
    (tx : List Transaction) :
    ∀ (days : List ℤ) (bal tot : ℚ) (n : ℕ) (e : RawEntryB),
      ((rawRunB rates bands tx days bal tot).2.2).get? n = some e →
      e.cumulativeInterest = tot +
        ((((rawRunB rates bands tx days bal tot).2.2).take (n + 1)).map
          (fun r => r.dailyInterest)).sum := by
  intro days
  induction days with
  | nil =>
    intro bal tot n e he
    simp [rawRunB] at he
  | cons d ds ih =>
    intro bal tot n e he
    simp only [rawRunB] at he ⊢
    cases n with
    | zero =>
      simp only [List.get?_cons_zero, Option.some_inj] at he
      subst he
      simp only [List.take_succ_cons, List.take_zero, List.map_cons, List.map_nil,
        List.sum_cons, List.sum_nil, add_zero]
      exact rawDayB_tot rates bands tx (bal, tot) d
    | succ m =>
      simp only [List.get?_cons_succ] at he
      have := ih (rawDayB rates bands tx (bal, tot) d).1
        (rawDayB rates bands tx (bal, tot) d).2.1 m e he
      rw [this, rawDayB_tot]
      simp only [List.take_succ_cons, List.map_cons, List.sum_cons]
      ring

/-- C8: on a non-empty ledger both engines return exactly the
pointwise display rounding of their full-precision traces, the
cumulative column of each is the rounding of the exact running sums,
and each returned total is the exact unrounded accumulator (the sum of
all full-precision daily interests) rounded to 2 decimals.  The
accumulators themselves are never rounded inside the loop. -/
theorem c8_two_tier_precision (tx : List Transaction) (endDate : ℤ)
    (rates : List RateEntry) (bands : List BandRange) (s : ℤ)
    (h : txMinDate tx = some s) :
    (calculate_interest_with_steps tx endDate rates bands =
      some (((rawRunA rates bands tx (dateRange s endDate) 0 0).2.2).map roundEntryA,
        pyRound 2 ((((rawRunA rates bands tx (dateRange s endDate) 0 0).2.2).map
          (fun e => e.dailyInterest)).sum))) ∧
    (∀ (n : ℕ) (e : RawEntryA),
      ((rawRunA rates bands tx (dateRange s endDate) 0 0).2.2).get? n = some e →
      e.totalSoFar =
        ((((rawRunA rates bands tx (dateRange s endDate) 0 0).2.2).take (n + 1)).map
          (fun r => r.dailyInterest)).sum) ∧
    (calculate_daily_interest tx endDate rates bands =
      some (((rawRunB rates bands tx (dateRange s endDate) 0 0).2.2).map roundEntryB,
        pyRound 2 ((((rawRunB rates bands tx (dateRange s endDate) 0 0).2.2).map
          (fun e => e.dailyInterest)).sum))) ∧
    (∀ (n : ℕ) (e : RawEntryB),
      ((rawRunB rates bands tx (dateRange s endDate) 0 0).2.2).get? n = some e →
      e.cumulativeInterest =
        ((((rawRunB rates bands tx (dateRange s endDate) 0 0).2.2).take (n + 1)).map
          (fun r => r.dailyInterest)).sum) := by
  refine ⟨?_, ?_, ?_, ?_⟩
  · simp only [calculate_interest_with_steps, h, runDaysA_raw, rawRunA_total]
    norm_num
  · intro n e he
    have := rawRunA_cumulative rates bands tx (dateRange s endDate) 0 0 n e he
    simpa using this
  · simp only [calculate_daily_interest, h, runDaysB_raw, rawRunB_total]
    norm_num
  · intro n e he
    have := rawRunB_cumulative rates bands tx (dateRange s endDate) 0 0 n e he
    simpa using this

/-- C8 witness: the theorem applied to a concrete one-transaction
ledger, for both engines. -/
theorem c8_witness :
    txMinDate [⟨0, 5⟩] = some 0 ∧
    calculate_interest_with_steps [⟨0, 5⟩] 0 [] [] =
      some (((rawRunA [] [] [⟨0, 5⟩] (dateRange 0 0) 0 0).2.2).map roundEntryA,
        pyRound 2 ((((rawRunA [] [] [⟨0, 5⟩] (dateRange 0 0) 0 0).2.2).map
          (fun e => e.dailyInterest)).sum)) ∧
    calculate_daily_interest [⟨0, 5⟩] 0 [] [] =
      some (((rawRunB [] [] [⟨0, 5⟩] (dateRange 0 0) 0 0).2.2).map roundEntryB,
        pyRound 2 ((((rawRunB [] [] [⟨0, 5⟩] (dateRange 0 0) 0 0).2.2).map
          (fun e => e.dailyInterest)).sum)) :=
  ⟨rfl, (c8_two_tier_precision [⟨0, 5⟩] 0 [] [] 0 rfl).1,
    (c8_two_tier_precision [⟨0, 5⟩] 0 [] [] 0 rfl).2.2.1⟩

/-!  C9: agreement of the engine copies. -/

/-- Correspondence between one variant A log row and one variant B log
row: same date, same rounded balance, same rate percentage, same daily
and cumulative interest, and the same band name up to the two spellings
of the no-band label. -/
def entryMatch (ea : LogEntryA) (eb : LogEntryB) : Prop :=
  ea.date = eb.date ∧ ea.balance = eb.balance ∧
  (ea.band = eb.band ∨ (ea.band = "N/A" ∧ eb.band = "None")) ∧
  ea.dailyRatePct = eb.annualRatePct ∧ ea.dailyInterest = eb.dailyInterest ∧
  ea.totalSoFar = eb.cumulativeInterest

/-- The running balances of the loop, day by day (the balance after
applying the netted transactions of each date).  Both engines share
this balance path because interest is never credited to the balance. -/
def balScan (tx : List Transaction) (days : List ℤ) (bal : ℚ) : List ℚ :=
  match days with
  | [] => []
  | d :: ds =>
    let b := applyTxOn tx bal d
    b :: balScan tx ds b

/-- One day of the rounded-balance loop body is the unrounded one with
only the Balance column rounded. -/
theorem dayA_from_unrounded (rates : List RateEntry) (bands : List BandRange)
    (tx : List Transaction) (st : ℚ × ℚ) (d : ℤ) :
    dayA rates bands tx st d =
      ((dayAU rates bands tx st d).1, (dayAU rates bands tx st d).2.1,
        roundBalanceA (dayAU rates bands tx st d).2.2) := rfl

/-- The rounded-balance loop is the unrounded loop with the Balance
column of every row rounded; the accumulators coincide. -/
theorem runDaysA_from_unrounded (rates : List RateEntry) (bands : List BandRange)
    (tx : List Transaction) :
    ∀ (days : List ℤ) (bal tot : ℚ),
      runDaysA rates bands tx days bal tot =
        ((runDaysAU rates bands tx days bal tot).1,
         (runDaysAU rates bands tx days bal tot).2.1,
         ((runDaysAU rates bands tx days bal tot).2.2).map roundBalanceA) := by
  intro days
  induction days with
  | nil => intro bal tot; rfl
  | cons d ds ih =>
    intro bal tot
    simp only [runDaysA, runDaysAU, dayA_from_unrounded, ih, List.map_cons]

/-- The two calculate_interest_with_steps sub-families compute the same
function up to the Balance column of the log: the rounded copies return
exactly the unrounded copies output with every logged balance rounded
to 2 decimals, and the same total. -/
theorem steps_from_unrounded (tx : List Transaction) (endDate : ℤ)
    (rates : List RateEntry) (bands : List BandRange) :
    calculate_interest_with_steps tx endDate rates bands =
      (calculate_interest_with_steps_unrounded tx endDate rates bands).map
        (fun p => (p.1.map roundBalanceA, p.2)) := by
  cases h : txMinDate tx with
  | none => simp [calculate_interest_with_steps, calculate_interest_with_steps_unrounded, h]
  | some s =>
    simp [calculate_interest_with_steps, calculate_interest_with_steps_unrounded, h,
      runDaysA_from_unrounded]

/-- Rounding one over one thousand to 2 decimals gives zero. -/
theorem pyRound_thousandth : pyRound 2 ((1 : ℚ)/1000) = 0 := by
  have hfl : (⌊((1:ℚ)/1000 * 10 ^ 2)⌋ : ℤ) = 0 := by
    rw [show ((1:ℚ)/1000 * 10 ^ 2) = 1/10 by norm_num, Int.floor_eq_iff]
    norm_num
  simp only [pyRound, roundHalfEven]
  rw [hfl]
  norm_num

/-- On a date-sorted rate table the sorted lookup of variant B agrees
with the unsorted last-row lookup of variant A. -/
theorem get_interest_rate_sorted (rates : List RateEntry) (d : ℤ) (b : String)
    (hsorted : rates.Pairwise (fun a c => a.startDate ≤ c.startDate))
    (hb : b ≠ "") :
    get_interest_rate rates d b = get_rate_for_date_and_band rates d b := by
  have hbeq : (b == "") = false := by
    simp [hb]
  have h1 : rates.Pairwise (fun a c => decide (a.startDate ≤ c.startDate) = true) :=
    hsorted.imp (fun h => by simp [h])
  have h2 : (ratesApplicable rates d b).Pairwise
      (fun a c => decide (a.startDate ≤ c.startDate) = true) :=
    h1.filter _
  simp only [get_interest_rate, get_rate_for_date_and_band, hbeq,
    List.mergeSort_of_sorted h2, Bool.false_eq_true, if_false]

/-- One day of the two loop bodies from equal accumulators: equal
balances, equal totals and matching log rows, provided the rate table
is date-sorted and the balance of the day is strictly positive. -/
theorem dayAB_match (rates : List RateEntry) (bands : List BandRange)
    (tx : List Transaction) (st : ℚ × ℚ) (d : ℤ)
    (hsorted : rates.Pairwise (fun a c => a.startDate ≤ c.startDate))
    (hpos : 0 < applyTxOn tx st.1 d) :
    (dayA rates bands tx st d).1 = (dayB rates bands tx st d).1 ∧
    (dayA rates bands tx st d).2.1 = (dayB rates bands tx st d).2.1 ∧
    entryMatch (dayA rates bands tx st d).2.2 (dayB rates bands tx st d).2.2 := by
  have hband : get_band_for_balance (applyTxOn tx st.1 d) bands =
      get_band_name bands (applyTxOn tx st.1 d) := by
    simp [get_band_for_balance, get_band_name, not_lt.2 (le_of_lt hpos)]
  have hposb : decide (0 < applyTxOn tx st.1 d) = true := by
    simp [hpos]
  cases hopt : get_band_name bands (applyTxOn tx st.1 d) with
  | none =>
    refine ⟨rfl, ?_, ?_, ?_, ?_, ?_, ?_, ?_⟩
    · simp [dayA, dayB, hband, hopt, truthyBand]
    · rfl
    · simp [dayA, dayB, hband, hopt, truthyBand]
    · simp [dayA, dayB, hband, hopt, truthyBand, bandDisplayA, bandDisplayB, entryMatch]
    · show pyRound 4 ((if truthyBand (get_band_name bands (applyTxOn tx st.1 d)) then
        (get_rate_for_date_and_band rates d
          ((get_band_name bands (applyTxOn tx st.1 d)).getD "") / 100 / 365,
         applyTxOn tx st.1 d *
          (get_rate_for_date_and_band rates d
            ((get_band_name bands (applyTxOn tx st.1 d)).getD "") / 100 / 365))
        else (0, 0)).1 * 365 * 100) = _
      simp [hopt, truthyBand, hband, dayB]
    · simp [dayA, dayB, hband, hopt, truthyBand]
    · simp [dayA, dayB, hband, hopt, truthyBand]
  | some b =>
    by_cases hbe : b = ""
    · subst hbe
      have htr : truthyBand (some "") = false := by
        simp [truthyBand]
      refine ⟨rfl, ?_, ?_, ?_, ?_, ?_, ?_, ?_⟩
      · simp [dayA, dayB, hband, hopt, htr]
      · rfl
      · simp [dayA, dayB, hband, hopt, htr]
      · simp [dayA, dayB, hband, hopt, htr, bandDisplayA, bandDisplayB]
      · simp [dayA, dayB, hband, hopt, htr]
      · simp [dayA, dayB, hband, hopt, htr]
      · simp [dayA, dayB, hband, hopt, htr]
    · have htr : truthyBand (some b) = true := by
        simp [truthyBand, hbe]
      have hrate := get_interest_rate_sorted rates d b hsorted hbe
      refine ⟨rfl, ?_, ?_, ?_, ?_, ?_, ?_, ?_⟩
      · simp [dayA, dayB, hband, hopt, htr, hposb, hrate]
      · rfl
      · simp [dayA, dayB, hband, hopt, htr, hposb, hrate]
      · simp [dayA, dayB, hband, hopt, htr, hposb, hrate, bandDisplayA, bandDisplayB, hbe]
      · simp only [dayA, dayB, hband, hopt, htr, hposb, Bool.true_and, if_true,
          Option.getD_some, hrate, LogEntryA.dailyRatePct, LogEntryB.annualRatePct]
        rw [show get_rate_for_date_and_band rates d b / 100 / 365 * 365 * 100 =
          get_rate_for_date_and_band rates d b by ring]
      · simp [dayA, dayB, hband, hopt, htr, hposb, hrate]
      · simp [dayA, dayB, hband, hopt, htr, hposb, hrate]

/-- The two loops agree from equal accumulators whenever the rate table
is date-sorted and every running balance along the day list is strictly
positive: equal final accumulators and pointwise matching logs. -/
theorem runDaysAB_match (rates : List RateEntry) (bands : List BandRange)
    (tx : List Transaction)
    (hsorted : rates.Pairwise (fun a c => a.startDate ≤ c.startDate)) :
    ∀ (days : List ℤ) (bal tot : ℚ),
      (∀ b ∈ balScan tx days bal, 0 < b) →
      (runDaysA rates bands tx days bal tot).1 = (runDaysB rates bands tx days bal tot).1 ∧
      (runDaysA rates bands tx days bal tot).2.1 =
        (runDaysB rates bands tx days bal tot).2.1 ∧
      List.Forall₂ entryMatch (runDaysA rates bands tx days bal tot).2.2
        (runDaysB rates bands tx days bal tot).2.2 := by
  intro days
  induction days with
  | nil =>
    intro bal tot _
    exact ⟨rfl, rfl, List.Forall₂.nil⟩
  | cons d ds ih =>
    intro bal tot hpos
    have hpos0 : 0 < applyTxOn tx bal d := by
      apply hpos
      simp [balScan]
    have hday := dayAB_match rates bands tx (bal, tot) d hsorted hpos0
    have hbal : (dayA rates bands tx (bal, tot) d).1 = applyTxOn tx bal d := rfl
    have hbalB : (dayB rates bands tx (bal, tot) d).1 = applyTxOn tx bal d := rfl
    have hpos1 : ∀ b ∈ balScan tx ds (applyTxOn tx bal d), 0 < b := by
      intro b hb
      apply hpos
      simp [balScan, hb]
    have ihx := ih (applyTxOn tx bal d) (dayA rates bands tx (bal, tot) d).2.1 hpos1
    simp only [runDaysA, runDaysB]
    rw [hbal, hbalB, ← hday.2.1]
    exact ⟨ihx.1, ihx.2.1, List.Forall₂.cons hday.2.2 ihx.2.2⟩

/-- C9 counterexample: the engine copies do not all compute the same
function, in two ways.  Across families: on the ledger [(day 0, -100)]
with band table (N, -1000, 1000) and a 365 percent rate,
calculate_interest_with_steps accrues on the negative balance and
returns total -1, while calculate_daily_interest returns total 0 with
a no-band log row.  Within the calculate_interest_with_steps family:
on the ledger [(day 0, 1/1000)] with empty tables, the rounded copies
log balance 0 while the unrounded copies log balance 1/1000, so their
per-day balance columns differ. -/
theorem c9_counterexample :
    calculate_interest_with_steps [⟨0, -100⟩] 0 [⟨0, "N", 365⟩] [⟨"N", -1000, 1000⟩] =
      some ([⟨0, -100, "N", 365, -1, -1⟩], -1) ∧
    calculate_daily_interest [⟨0, -100⟩] 0 [⟨0, "N", 365⟩] [⟨"N", -1000, 1000⟩] =
      some ([⟨0, -100, "None", 0, 0, 0⟩], 0) ∧
    ((-1 : ℚ) ≠ 0) ∧
    calculate_interest_with_steps [⟨0, 1/1000⟩] 0 [] [] =
      some ([⟨0, 0, "N/A", 0, 0, 0⟩], 0) ∧
    calculate_interest_with_steps_unrounded [⟨0, 1/1000⟩] 0 [] [] =
      some ([⟨0, 1/1000, "N/A", 0, 0, 0⟩], 0) ∧
    ((0 : ℚ) ≠ 1/1000) := by
  refine ⟨?_, ?_, by norm_num, ?_, ?_, by norm_num⟩ <;>
    · norm_num +decide [calculate_interest_with_steps, calculate_daily_interest,
        calculate_interest_with_steps_unrounded, txMinDate, dateRange, runDaysA, runDaysB,
        runDaysAU, dayA, dayB, dayAU, applyTxOn, hasTxOn, transSum, get_band_name,
        get_band_for_balance, get_rate_for_date_and_band, get_interest_rate,
        ratesApplicable, truthyBand, bandDisplayA, bandDisplayB, List.filter, List.range,
        List.range.loop, pyRound_thousandth]
      repeat' apply And.intro
      all_goals first
        | rw [pyRound_thousandth]
        | (apply pyRound_eq_self; norm_num [Int.fract])

/-- C9 amended: the copies split into three behaviours.  The two
calculate_interest_with_steps sub-families (rounded-balance copies in
HOHOHOHOH.py and the first OffRelease.py copy; raw-balance copies in
app234.py, backup.py, streamlittest.py, testapp.py,
interest_calculator_cli.py, the first AHHHAHAHA.py copy and the third
OffRelease.py copy) always agree on every log column except Balance,
where the rounded family logs exactly the 2-decimal rounding of the
raw family balance, and they always return the same total.
calculate_daily_interest agrees with calculate_interest_with_steps
(same total and pointwise matching logs: same date, balance, rate
percentage, daily and cumulative interest, same band up to the N/A
versus None no-band label) whenever the rate table is date-sorted and
every running day balance is strictly positive; outside those
conditions the families can differ, as the counterexample shows. -/
theorem c9_engines_agree (tx : List Transaction) (endDate : ℤ)
    (rates : List RateEntry) (bands : List BandRange) (s : ℤ)
    (hmin : txMinDate tx = some s)
    (hsorted : rates.Pairwise (fun a c => a.startDate ≤ c.startDate))
    (hpos : ∀ b ∈ balScan tx (dateRange s endDate) 0, 0 < b) :
    (∀ (tx2 : List Transaction) (endDate2 : ℤ) (rates2 : List RateEntry)
        (bands2 : List BandRange),
      calculate_interest_with_steps tx2 endDate2 rates2 bands2 =
        (calculate_interest_with_steps_unrounded tx2 endDate2 rates2 bands2).map
          (fun p => (p.1.map roundBalanceA, p.2))) ∧
    ∃ logA logB tot,
      calculate_interest_with_steps tx endDate rates bands = some (logA, tot) ∧
      calculate_daily_interest tx endDate rates bands = some (logB, tot) ∧
      List.Forall₂ entryMatch logA logB := by
  refine ⟨fun tx2 endDate2 rates2 bands2 => steps_from_unrounded tx2 endDate2 rates2 bands2,
    ?_⟩
  have h := runDaysAB_match rates bands tx hsorted (dateRange s endDate) 0 0 hpos
  refine ⟨(runDaysA rates bands tx (dateRange s endDate) 0 0).2.2,
    (runDaysB rates bands tx (dateRange s endDate) 0 0).2.2,
    pyRound 2 (runDaysA rates bands tx (dateRange s endDate) 0 0).2.1, ?_, ?_, h.2.2⟩
  · simp [calculate_interest_with_steps, hmin]
  · rw [h.2.1]
    simp [calculate_daily_interest, hmin]

/-- C9 witness: the agreement theorem applied to the end-to-end
example input. -/
theorem c9_witness :
    txMinDate [⟨0, 1000⟩] = some 0 ∧
    List.Pairwise (fun (a c : RateEntry) => a.startDate ≤ c.startDate) [⟨0, "Low", 73/20⟩] ∧
    (∀ b ∈ balScan [⟨0, 1000⟩] (dateRange 0 2) 0, 0 < b) ∧
    ((∀ (tx2 : List Transaction) (endDate2 : ℤ) (rates2 : List RateEntry)
        (bands2 : List BandRange),
      calculate_interest_with_steps tx2 endDate2 rates2 bands2 =
        (calculate_interest_with_steps_unrounded tx2 endDate2 rates2 bands2).map
          (fun p => (p.1.map roundBalanceA, p.2))) ∧
    ∃ logA logB tot,
      calculate_interest_with_steps [⟨0, 1000⟩] 2 [⟨0, "Low", 73/20⟩] [⟨"Low", 0, 2000⟩] =
        some (logA, tot) ∧
      calculate_daily_interest [⟨0, 1000⟩] 2 [⟨0, "Low", 73/20⟩] [⟨"Low", 0, 2000⟩] =
        some (logB, tot) ∧
      List.Forall₂ entryMatch logA logB) := by
  have h1 : txMinDate [(⟨0, 1000⟩ : Transaction)] = some 0 := rfl
  have h2 : List.Pairwise (fun (a c : RateEntry) => a.startDate ≤ c.startDate)
      [⟨0, "Low", 73/20⟩] := List.pairwise_singleton _ _
  have h3 : ∀ b ∈ balScan [⟨0, 1000⟩] (dateRange 0 2) 0, 0 < b := by
    intro b hb
    have : balScan [(⟨0, 1000⟩ : Transaction)] (dateRange 0 2) 0 = [1000, 1000, 1000] := by
      norm_num +decide [balScan, dateRange, applyTxOn, hasTxOn, transSum, List.filter,
        List.range, List.range.loop]
    rw [this] at hb
    simp at hb
    simp [hb]
  exact ⟨h1, h2, h3, c9_engines_agree [⟨0, 1000⟩] 2 [⟨0, "Low", 73/20⟩]
    [⟨"Low", 0, 2000⟩] 0 h1 h2 h3⟩
